import Mathlib

/-!
Verification of the `StackList` fixed-capacity stack container from
`src/collections/stacklist.rs`.

The Rust structure `StackList<T, S>` holds `data : [MaybeUninit<T>; S]` and a
`writer_index : usize`.  We embed `MaybeUninit<T>` as `Option T` (`none` is an
uninitialized slot) and the fixed-size array as a `List (Option T)`; the fact
that the Rust array always has length `S` becomes an explicit hypothesis
(`l.data.length = S`) in the theorems.  `usize` indices stay `Nat`: no
operation of the source ever overflows or underflows one (push only increments
below `S`, pop only decrements above `0`), so modular reduction never fires.
-/

/-- Embeds the Rust `enum ListError { ListFull }`. -/
inductive ListError where
  | ListFull
  deriving DecidableEq

/-- Embeds `impl Display for ListError`: `write!(f, "The list is full.")`. -/
def ListError.display : ListError → String
  | .ListFull => "The list is full."

/-- Embeds `struct StackList<T, S> { data: [MaybeUninit<T>; S], writer_index: usize }`. -/
structure StackList (T : Type) (S : Nat) where
  data : List (Option T)
  writer_index : Nat
  deriving DecidableEq

namespace StackList

/-- Embeds `StackList::is_full`: `self.writer_index == S`. -/
def is_full {T : Type} {S : Nat} (l : StackList T S) : Bool :=
  l.writer_index == S

/-- Embeds `StackList::is_empty`: `self.writer_index == 0`. -/
def is_empty {T : Type} {S : Nat} (l : StackList T S) : Bool :=
  l.writer_index == 0

/-- Embeds `StackList::push`.  Rust mutates `&mut self` and returns
`Result<(), ListError>`; we return the updated state in the `ok` case. -/
def push {T : Type} {S : Nat} (l : StackList T S) (item : T) :
    Except ListError (StackList T S) :=
  if l.is_full then
    Except.error ListError.ListFull
  else
    Except.ok { data := l.data.set l.writer_index (some item),
                writer_index := l.writer_index + 1 }

/-- Embeds `StackList::pop`.  Rust mutates `&mut self` and returns
`Option<T>`; we return the pair (returned option, updated state).  The
`mem::replace(..., MaybeUninit::uninit())` becomes setting the slot to
`none`. -/
def pop {T : Type} {S : Nat} (l : StackList T S) :
    Option T × StackList T S :=
  if l.is_empty then
    (none, l)
  else
    let i := l.writer_index - 1
    (l.data.getD i none,
     { data := l.data.set i none, writer_index := i })

/-- Embeds `StackList::new`: all slots uninitialized, `writer_index = 0`. -/
def new {T : Type} {S : Nat} : StackList T S :=
  { data := List.replicate S none, writer_index := 0 }

/-- The state a caller holds after attempting `push`: the updated stack on
success, the untouched stack on `ListFull` (Rust leaves `&mut self`
unchanged when `push` returns the error). -/
def pushState {T : Type} {S : Nat} (l : StackList T S) (item : T) :
    StackList T S :=
  match l.push item with
  | Except.ok l' => l'
  | Except.error _ => l

end StackList

/-- Embeds `struct StackListIter<'a, T, S> { list: &'a StackList<T, S>, reader_index: usize }`. -/
structure StackListIter (T : Type) (S : Nat) where
  list : StackList T S
  reader_index : Nat

/-- Embeds `StackList::iter`: a fresh iterator with `reader_index = 0`. -/
def StackList.iter {T : Type} {S : Nat} (l : StackList T S) : StackListIter T S :=
  { list := l, reader_index := 0 }

namespace StackListIter

/-- Embeds `StackListIter::next`.  Rust returns `Option<&'a T>`; we return the
(optionally) read value together with the advanced iterator. -/
def next {T : Type} {S : Nat} (it : StackListIter T S) :
    Option T × StackListIter T S :=
  if it.reader_index == it.list.writer_index then
    (none, it)
  else
    (it.list.data.getD it.reader_index none,
     { it with reader_index := it.reader_index + 1 })

/-- Embeds `StackListIter::size_hint`:
`let remaining = (writer_index - reader_index) + 1; (remaining, Some(remaining))`. -/
def size_hint {T : Type} {S : Nat} (it : StackListIter T S) :
    Nat × Option Nat :=
  let remaining := (it.list.writer_index - it.reader_index) + 1
  (remaining, some remaining)

/-- The finite list of items yielded by repeatedly calling `next`, supplied
with enough fuel (the Rust loop terminates because `reader_index` reaches
`writer_index`; fuel makes that termination explicit in Lean). -/
def collect {T : Type} {S : Nat} : Nat → StackListIter T S → List T
  | 0, _ => []
  | fuel + 1, it =>
    match it.next with
    | (none, _) => []
    | (some v, it') => v :: collect fuel it'

end StackListIter

/-- Embeds `struct IntoIter<T, S>(StackList<T, S>)`. -/
structure IntoIter (T : Type) (S : Nat) where
  list : StackList T S

/-- Embeds `StackList::into_iter`: `IntoIter(self)`. -/
def StackList.into_iter {T : Type} {S : Nat} (l : StackList T S) : IntoIter T S :=
  { list := l }

namespace IntoIter

/-- Embeds `Iterator::next` for `IntoIter`: `self.0.pop()`. -/
def next {T : Type} {S : Nat} (it : IntoIter T S) :
    Option T × IntoIter T S :=
  ((it.list.pop).1, { list := (it.list.pop).2 })

/-- The finite list of items yielded by repeatedly calling `next` on the
consuming iterator, supplied with enough fuel. -/
def collect {T : Type} {S : Nat} : Nat → IntoIter T S → List T
  | 0, _ => []
  | fuel + 1, it =>
    match it.next with
    | (none, _) => []
    | (some v, it') => v :: collect fuel it'

end IntoIter

/-- An operation of the container's mutating interface, for reasoning about
arbitrary interleavings of pushes and pops. -/
inductive Op (T : Type) where
  | push (v : T)
  | pop

/-- Runs a sequence of operations against a stack, threading the state the
way a Rust caller's `&mut` borrow does (a failed push leaves the state
unchanged; a pop of an empty stack leaves the state unchanged). -/
def StackList.run {T : Type} {S : Nat} (l : StackList T S) : List (Op T) → StackList T S
  | [] => l
  | Op.push v :: ops => (l.pushState v).run ops
  | Op.pop :: ops => (l.pop).2.run ops

/-- The well-formedness invariant every reachable `StackList` state enjoys:
the backing array has length `S`, the writer index never exceeds `S`, and
every slot below the writer index holds a live (initialized) value. -/
def StackList.Inv {T : Type} {S : Nat} (l : StackList T S) : Prop :=
  l.data.length = S ∧ l.writer_index ≤ S ∧
    ∀ i, i < l.writer_index → (l.data.getD i none).isSome

/-- Setting a slot at or beyond the taken prefix does not change that prefix. -/
theorem takeSet_eq_take {α : Type} (l : List α) (i n : Nat) (a : α) (h : n ≤ i) :
    (l.set i a).take n = l.take n := by
  apply List.ext_getElem?
  intro j
  rw [List.getElem?_take, List.getElem?_take]
  by_cases hj : j < n
  · simp only [hj, if_pos]
    rw [List.getElem?_set_ne (by omega)]
  · simp [hj]

/-- C1: for every stack state whose backing array has length `N`, if
`count = N` then `push` returns the `ListFull` error and leaves the state
unchanged; if `count < N` it stores the value at slot index `count`,
increments `count` by exactly one, and leaves every other slot unchanged. -/
theorem C1_push_spec {T : Type} {S : Nat} (l : StackList T S) (v : T)
    (hlen : l.data.length = S) :
    (l.writer_index = S →
      l.push v = Except.error ListError.ListFull ∧ l.pushState v = l) ∧
    (l.writer_index < S →
      ∃ l', l.push v = Except.ok l' ∧
        l'.writer_index = l.writer_index + 1 ∧
        l'.data.getD l.writer_index none = some v ∧
        ∀ i, i ≠ l.writer_index → l'.data.getD i none = l.data.getD i none) := by
  constructor
  · intro h
    have hfull : l.is_full = true := by simp [StackList.is_full, h]
    exact ⟨by simp [StackList.push, hfull],
           by simp [StackList.pushState, StackList.push, hfull]⟩
  · intro h
    have hnf : l.is_full = false := by
      simp only [StackList.is_full, beq_eq_false_iff_ne, ne_eq]
      omega
    have hw : l.writer_index < l.data.length := by omega
    refine ⟨⟨l.data.set l.writer_index (some v), l.writer_index + 1⟩,
      by simp [StackList.push, hnf], rfl, ?_, ?_⟩
    · rw [List.getD_eq_getElem?_getD, List.getElem?_set_self hw]
      rfl
    · intro i hi
      rw [List.getD_eq_getElem?_getD, List.getD_eq_getElem?_getD,
        List.getElem?_set_ne (Ne.symm hi)]

/-- Witness for C1 at capacity 1: pushing onto the empty stack succeeds and
the new state has one live slot holding the pushed value. -/
theorem C1_push_spec_witness :
    ((StackList.new : StackList Nat 1).pushState 7).writer_index = 1 ∧
      ((StackList.new : StackList Nat 1).pushState 7).data.getD 0 none = some 7 := by
  obtain ⟨l', hok, hwi, hslot, -⟩ :=
    (C1_push_spec (StackList.new : StackList Nat 1) 7 (by decide)).2 (by decide)
  constructor
  · simp only [StackList.pushState, hok]
    simpa [StackList.new] using hwi
  · simp only [StackList.pushState, hok]
    simpa [StackList.new] using hslot

/-- C2: if `count = 0`, `pop` returns `none` and leaves the state unchanged;
if `count > 0`, `pop` decrements `count` by exactly one, returns the value at
the new top slot (index `count - 1`), marks that slot dead, and leaves every
other slot unchanged. -/
theorem C2_pop_spec {T : Type} {S : Nat} (l : StackList T S) :
    (l.writer_index = 0 → l.pop = (none, l)) ∧
    (0 < l.writer_index →
      (l.pop).2.writer_index = l.writer_index - 1 ∧
      (l.pop).1 = l.data.getD (l.writer_index - 1) none ∧
      (l.pop).2.data.getD (l.writer_index - 1) none = none ∧
      ∀ i, i ≠ l.writer_index - 1 → (l.pop).2.data.getD i none = l.data.getD i none) := by
  constructor
  · intro h
    have hemp : l.is_empty = true := by simp [StackList.is_empty, h]
    simp [StackList.pop, hemp]
  · intro h
    have hne : l.is_empty = false := by
      simp only [StackList.is_empty, beq_eq_false_iff_ne, ne_eq]
      omega
    refine ⟨by simp [StackList.pop, hne], by simp [StackList.pop, hne], ?_, ?_⟩
    · simp only [StackList.pop, hne, Bool.false_eq_true, if_false]
      rw [List.getD_eq_getElem?_getD]
      by_cases hw : l.writer_index - 1 < l.data.length
      · rw [List.getElem?_set_self hw]
        rfl
      · rw [List.getElem?_eq_none (by simp; omega)]
        rfl
    · intro i hi
      simp only [StackList.pop, hne, Bool.false_eq_true, if_false]
      rw [List.getD_eq_getElem?_getD, List.getD_eq_getElem?_getD,
        List.getElem?_set_ne (Ne.symm hi)]

/-- Witness for C2 on the one-element stack `[some 5]` with `count = 1`:
popping returns `5` and empties the stack. -/
theorem C2_pop_spec_witness :
    ((⟨[some 5], 1⟩ : StackList Nat 1).pop).2.writer_index = 1 - 1 ∧
      ((⟨[some 5], 1⟩ : StackList Nat 1).pop).1 =
        (⟨[some 5], 1⟩ : StackList Nat 1).data.getD (1 - 1) none :=
  ⟨((C2_pop_spec (⟨[some 5], 1⟩ : StackList Nat 1)).2 (by decide)).1,
   ((C2_pop_spec (⟨[some 5], 1⟩ : StackList Nat 1)).2 (by decide)).2.1⟩

/-- Counterexample for C6: on the full stack of capacity 0 the push fails,
so the subsequent pop does not return the pushed value, refuting the
unconditional round-trip claim. -/
theorem C6_roundtrip_counterexample :
    ¬(((StackList.new : StackList Nat 0).pushState 42).pop.2.writer_index =
        (StackList.new : StackList Nat 0).writer_index ∧
      ((StackList.new : StackList Nat 0).pushState 42).pop.1 = some 42) := by
  decide

/-- C6 (amended): for every stack state that is not full (`count < N`, with a
length-`N` backing array), push of `v` followed immediately by pop returns
exactly `v` and restores the original count. -/
theorem C6_roundtrip_spec {T : Type} {S : Nat} (l : StackList T S) (v : T)
    (hlen : l.data.length = S) (h : l.writer_index < S) :
    ((l.pushState v).pop.1 = some v) ∧
    ((l.pushState v).pop.2.writer_index = l.writer_index) := by
  have hnf : l.is_full = false := by
    simp only [StackList.is_full, beq_eq_false_iff_ne, ne_eq]
    omega
  have hw : l.writer_index < l.data.length := by omega
  constructor
  · simp [StackList.pushState, StackList.push, hnf, StackList.pop, StackList.is_empty,
      List.getD_eq_getElem?_getD, List.getElem?_set_self, hw]
  · simp [StackList.pushState, StackList.push, hnf, StackList.pop, StackList.is_empty]

/-- Witness for C6 (amended) at capacity 1: push 9 then pop on the empty
stack returns 9 and leaves the count at 0. -/
theorem C6_roundtrip_spec_witness :
    (((StackList.new : StackList Nat 1).pushState 9).pop.1 = some 9) ∧
    (((StackList.new : StackList Nat 1).pushState 9).pop.2.writer_index =
      (StackList.new : StackList Nat 1).writer_index) :=
  C6_roundtrip_spec (StackList.new : StackList Nat 1) 9 (by decide) (by decide)

/-- C7: `is_empty` holds exactly when `count = 0`, `is_full` exactly when
`count = N`; when `N > 0` they are mutually exclusive, and for `count`
strictly between 0 and `N` neither holds. -/
theorem C7_queries_spec {T : Type} {S : Nat} (l : StackList T S) :
    (l.is_empty = true ↔ l.writer_index = 0) ∧
    (l.is_full = true ↔ l.writer_index = S) ∧
    (0 < S → ¬(l.is_empty = true ∧ l.is_full = true)) ∧
    (0 < l.writer_index → l.writer_index < S →
      l.is_empty = false ∧ l.is_full = false) := by
  refine ⟨by simp [StackList.is_empty], by simp [StackList.is_full], ?_, ?_⟩
  · intro hS ⟨he, hf⟩
    simp only [StackList.is_empty, StackList.is_full, beq_iff_eq] at he hf
    omega
  · intro h1 h2
    constructor <;>
      simp only [StackList.is_empty, StackList.is_full, beq_eq_false_iff_ne, ne_eq] <;>
      omega

/-- Witness for C7 at `N = 2`, `count = 1`: neither empty nor full. -/
theorem C7_queries_spec_witness :
    (⟨[some 3, none], 1⟩ : StackList Nat 2).is_empty = false ∧
      (⟨[some 3, none], 1⟩ : StackList Nat 2).is_full = false :=
  (C7_queries_spec (⟨[some 3, none], 1⟩ : StackList Nat 2)).2.2.2
    (by decide) (by decide)

/-- C8: for every forward-iterator state with reader position at most the
count, `size_hint` reports `(count - position) + 1` as both the lower and the
upper bound — one more than the true remaining count. -/
theorem C8_size_hint_spec {T : Type} {S : Nat} (it : StackListIter T S)
    (h : it.reader_index ≤ it.list.writer_index) :
    it.size_hint = ((it.list.writer_index - it.reader_index) + 1,
      some ((it.list.writer_index - it.reader_index) + 1)) :=
  rfl

/-- Witness for C8: a fresh iterator over a stack with one live element
reports a remaining length of 2. -/
theorem C8_size_hint_spec_witness :
    (⟨⟨[some 4, none], 1⟩, 0⟩ : StackListIter Nat 2).size_hint =
      ((1 - 0) + 1, some ((1 - 0) + 1)) :=
  C8_size_hint_spec (⟨⟨[some 4, none], 1⟩, 0⟩ : StackListIter Nat 2) (by decide)

/-- Counterexample for C9: the display message of the full-list error is not
the string "the list is full" (the source writes "The list is full."). -/
theorem C9_display_counterexample :
    ListError.display ListError.ListFull ≠ "the list is full" := by
  decide

/-- C9 (amended): the full-list error is a single variant, `push` returns it
exactly when `count = N`, and its display message is the string
"The list is full.". -/
theorem C9_error_spec :
    (∀ e : ListError, e = ListError.ListFull) ∧
    (∀ (T : Type) (S : Nat) (l : StackList T S) (v : T) (e : ListError),
      l.push v = Except.error e → l.writer_index = S ∧ e = ListError.ListFull) ∧
    ListError.display ListError.ListFull = "The list is full." := by
  refine ⟨fun e => by cases e; rfl, ?_, rfl⟩
  intro T S l v e h
  by_cases hf : l.is_full = true
  · have hw : l.writer_index = S := by
      simpa [StackList.is_full] using hf
    exact ⟨hw, by cases e; rfl⟩
  · simp [StackList.push, hf] at h

/-- Witness for C9 (amended): pushing onto a full capacity-0 stack yields the
error, so the second conjunct applies with `count = N = 0`. -/
theorem C9_error_spec_witness :
    (StackList.new : StackList Nat 0).writer_index = 0 ∧
      ListError.ListFull = ListError.ListFull :=
  C9_error_spec.2.1 Nat 0 StackList.new 1 ListError.ListFull rfl

/-- C10: with capacity `N = 0` the freshly constructed stack is both empty
and full, every push fails with the full-list error leaving the state
unchanged, every pop returns `none`, and indeed no sequence of operations
ever changes the state. -/
theorem C10_zero_capacity_spec {T : Type} (v : T) :
    (StackList.new : StackList T 0).is_empty = true ∧
    (StackList.new : StackList T 0).is_full = true ∧
    (StackList.new : StackList T 0).push v = Except.error ListError.ListFull ∧
    (StackList.new : StackList T 0).pop = (none, StackList.new) ∧
    ∀ ops : List (Op T), (StackList.new : StackList T 0).run ops = StackList.new := by
  refine ⟨rfl, rfl, rfl, rfl, ?_⟩
  intro ops
  induction ops with
  | nil => rfl
  | cons op ops ih =>
    cases op with
    | push w => exact ih
    | pop => exact ih

/-- Attempting a push never raises the writer index above the capacity. -/
theorem StackList.pushState_writer_le {T : Type} {S : Nat} (l : StackList T S)
    (v : T) (h : l.writer_index ≤ S) : (l.pushState v).writer_index ≤ S := by
  by_cases hf : l.is_full
  · simpa [StackList.pushState, StackList.push, hf] using h
  · have hne : l.writer_index ≠ S := by
      simpa [StackList.is_full] using hf
    simp only [Bool.not_eq_true] at hf
    simp [StackList.pushState, StackList.push, hf]
    omega

/-- A pop never raises the writer index. -/
theorem StackList.pop_writer_le {T : Type} {S : Nat} (l : StackList T S) :
    (l.pop).2.writer_index ≤ l.writer_index := by
  by_cases he : l.is_empty
  · simp [StackList.pop, he]
  · simp only [Bool.not_eq_true] at he
    simp [StackList.pop, he]

/-- C3: starting from a newly constructed stack of capacity `N`, after every
sequence of push and pop operations the element count satisfies
`0 ≤ count ≤ N`. -/
theorem C3_count_invariant {T : Type} {S : Nat} (ops : List (Op T)) :
    0 ≤ ((StackList.new : StackList T S).run ops).writer_index ∧
    ((StackList.new : StackList T S).run ops).writer_index ≤ S := by
  refine ⟨Nat.zero_le _, ?_⟩
  have main : ∀ (ops : List (Op T)) (l : StackList T S), l.writer_index ≤ S →
      (l.run ops).writer_index ≤ S := by
    intro ops
    induction ops with
    | nil => intro l h; exact h
    | cons op ops ih =>
      intro l h
      cases op with
      | push v => exact ih _ (StackList.pushState_writer_le l v h)
      | pop => exact ih _ (le_trans (StackList.pop_writer_le l) h)
  exact main ops _ (Nat.zero_le _)

/-- Collecting the forward iterator from reader position `p` on an invariant
state yields exactly the live slots `p, p+1, …, count-1`, in that order. -/
theorem StackListIter.collect_eq_drop_take {T : Type} {S : Nat}
    (l : StackList T S) (hinv : l.Inv) :
    ∀ (fuel p : Nat), p ≤ l.writer_index → l.writer_index - p ≤ fuel →
      List.map some (StackListIter.collect fuel ⟨l, p⟩) =
        (l.data.take l.writer_index).drop p := by
  obtain ⟨hlen, hle, hlive⟩ := hinv
  intro fuel
  induction fuel with
  | zero =>
    intro p hp hf
    have hdrop : (l.data.take l.writer_index).drop p = [] := by
      apply List.drop_eq_nil_of_le
      simp only [List.length_take]
      omega
    simp [StackListIter.collect, hdrop]
  | succ fuel ih =>
    intro p hp hf
    by_cases hpe : p = l.writer_index
    · have hbeq : (p == l.writer_index) = true := by simp [hpe]
      have hdrop : (l.data.take l.writer_index).drop p = [] := by
        apply List.drop_eq_nil_of_le
        simp only [List.length_take]
        omega
      simp [StackListIter.collect, StackListIter.next, hbeq, hdrop]
    · have hplt : p < l.writer_index := by omega
      have hpl : p < l.data.length := by omega
      have hbeq : (p == l.writer_index) = false := by simp [hpe]
      obtain ⟨v, hv⟩ : ∃ v, l.data.getD p none = some v := by
        have hs := hlive p hplt
        cases hx : l.data.getD p none with
        | none => rw [hx] at hs; simp at hs
        | some v => exact ⟨v, rfl⟩
      have hgp : l.data[p]? = some (some v) := by
        rw [List.getD_eq_getElem?_getD, List.getElem?_eq_getElem hpl] at hv
        rw [List.getElem?_eq_getElem hpl]
        simp only [Option.getD_some] at hv
        rw [hv]
      have hcol : StackListIter.collect (fuel + 1) (⟨l, p⟩ : StackListIter T S) =
          v :: StackListIter.collect fuel ⟨l, p + 1⟩ := by
        simp [StackListIter.collect, StackListIter.next, hbeq, hv, hgp]
      have hlt : p < (l.data.take l.writer_index).length := by
        simp only [List.length_take]
        omega
      have htake : (l.data.take l.writer_index)[p] = some v := by
        have h1 : (l.data.take l.writer_index)[p]? = some (some v) := by
          rw [List.getElem?_take]
          simp only [hplt, if_pos]
          exact hgp
        rw [List.getElem?_eq_getElem hlt] at h1
        exact Option.some_injective _ h1
      have hrhs : (l.data.take l.writer_index).drop p =
          some v :: (l.data.take l.writer_index).drop (p + 1) := by
        rw [List.drop_eq_getElem_cons hlt, htake]
      rw [hcol, hrhs, List.map_cons, ih (p + 1) (by omega) (by omega)]

/-- C4: on every invariant stack state, forward iteration yields the live
elements in push order (slot 0 first, slot `count - 1` last), yields exactly
`count` items however much extra fuel is supplied, and each `next` step
leaves the underlying stack (hence its count) untouched. -/
theorem C4_iter_spec {T : Type} {S : Nat} (l : StackList T S) (hinv : l.Inv) :
    (∀ fuel, l.writer_index ≤ fuel →
      List.map some (StackListIter.collect fuel l.iter) =
        l.data.take l.writer_index) ∧
    (∀ fuel, l.writer_index ≤ fuel →
      (StackListIter.collect fuel l.iter).length = l.writer_index) ∧
    (∀ it : StackListIter T S, ((it.next).2).list = it.list) := by
  have hmap : ∀ fuel, l.writer_index ≤ fuel →
      List.map some (StackListIter.collect fuel l.iter) =
        l.data.take l.writer_index := by
    intro fuel hf
    have h := StackListIter.collect_eq_drop_take l hinv fuel 0
      (Nat.zero_le _) (by omega)
    simpa [StackList.iter] using h
  refine ⟨hmap, ?_, ?_⟩
  · intro fuel hf
    have h := congrArg List.length (hmap fuel hf)
    obtain ⟨hlen, hle, -⟩ := hinv
    simp only [List.length_map, List.length_take] at h
    omega
  · intro it
    by_cases hb : (it.reader_index == it.list.writer_index) = true
    · simp [StackListIter.next, hb]
    · simp only [Bool.not_eq_true] at hb
      simp [StackListIter.next, hb]

/-- Witness for C4: iterating the two-element stack `[1, 2]` yields `1, 2`. -/
theorem C4_iter_spec_witness :
    List.map some
      (StackListIter.collect 2 (StackList.iter ⟨[some 1, some 2], 2⟩ : StackListIter Nat 2)) =
      [some 1, some 2] :=
  (C4_iter_spec (⟨[some 1, some 2], 2⟩ : StackList Nat 2)
    (by unfold StackList.Inv; decide)).1 2 (by decide)

/-- Collecting the consuming iterator on an invariant state yields the live
elements newest-first: the reverse of the live prefix. -/
theorem IntoIter.collect_eq_reverse_take {T : Type} {S : Nat} :
    ∀ (w : Nat) (l : StackList T S), l.Inv → l.writer_index = w →
      ∀ fuel, w ≤ fuel →
        List.map some (IntoIter.collect fuel ⟨l⟩) =
          (l.data.take w).reverse := by
  intro w
  induction w with
  | zero =>
    intro l hinv hw fuel hf
    cases fuel with
    | zero => simp [IntoIter.collect]
    | succ fuel =>
      have hemp : l.is_empty = true := by simp [StackList.is_empty, hw]
      simp [IntoIter.collect, IntoIter.next, StackList.pop, hemp]
  | succ w ih =>
    intro l hinv hw fuel hf
    obtain ⟨hlen, hle, hlive⟩ := hinv
    cases fuel with
    | zero => omega
    | succ fuel =>
      have hne : l.is_empty = false := by simp [StackList.is_empty, hw]
      have hwl : w < l.data.length := by omega
      obtain ⟨v, hv⟩ : ∃ v, l.data.getD w none = some v := by
        have hs := hlive w (by omega)
        cases hx : l.data.getD w none with
        | none => rw [hx] at hs; simp at hs
        | some v => exact ⟨v, rfl⟩
      have hgp : l.data[w]? = some (some v) := by
        rw [List.getD_eq_getElem?_getD, List.getElem?_eq_getElem hwl] at hv
        rw [List.getElem?_eq_getElem hwl]
        simp only [Option.getD_some] at hv
        rw [hv]
      have hpop : l.pop = (some v, ⟨l.data.set w none, w⟩) := by
        simp [StackList.pop, hne, hw, hv, hgp]
      have hcol : IntoIter.collect (fuel + 1) (⟨l⟩ : IntoIter T S) =
          v :: IntoIter.collect fuel (⟨⟨l.data.set w none, w⟩⟩ : IntoIter T S) := by
        simp [IntoIter.collect, IntoIter.next, hpop]
      have hinv2 : (⟨l.data.set w none, w⟩ : StackList T S).Inv := by
        refine ⟨by simpa using hlen, by show w ≤ S; omega, ?_⟩
        intro i hi
        have hi2 : i < w := hi
        show ((l.data.set w none).getD i none).isSome = true
        rw [List.getD_eq_getElem?_getD, List.getElem?_set_ne (by omega),
          ← List.getD_eq_getElem?_getD]
        exact hlive i (by omega)
      have hih := ih ⟨l.data.set w none, w⟩ hinv2 rfl fuel (by omega)
      have htake : (⟨l.data.set w none, w⟩ : StackList T S).data.take w =
          l.data.take w := by
        simpa using takeSet_eq_take l.data w w none (le_refl w)
      have hrhs : (l.data.take (w + 1)).reverse =
          some v :: (l.data.take w).reverse := by
        rw [List.take_succ, hgp]
        simp [List.reverse_append]
      rw [hcol, List.map_cons, hih, htake, hrhs]

/-- C5: on every invariant stack state, the consuming iterator yields the
live elements newest-first (slot `count - 1` first, slot 0 last), each step
is exactly the pop operation, and exactly `count` items are produced however
much extra fuel is supplied — further steps yield nothing. -/
theorem C5_into_iter_spec {T : Type} {S : Nat} (l : StackList T S) (hinv : l.Inv) :
    (∀ fuel, l.writer_index ≤ fuel →
      List.map some (IntoIter.collect fuel l.into_iter) =
        (l.data.take l.writer_index).reverse) ∧
    (∀ fuel, l.writer_index ≤ fuel →
      (IntoIter.collect fuel l.into_iter).length = l.writer_index) ∧
    (∀ it : IntoIter T S, it.next = ((it.list.pop).1, ⟨(it.list.pop).2⟩)) := by
  have hmap : ∀ fuel, l.writer_index ≤ fuel →
      List.map some (IntoIter.collect fuel l.into_iter) =
        (l.data.take l.writer_index).reverse :=
    fun fuel hf =>
      IntoIter.collect_eq_reverse_take l.writer_index l hinv rfl fuel hf
  refine ⟨hmap, ?_, fun it => rfl⟩
  intro fuel hf
  have h := congrArg List.length (hmap fuel hf)
  obtain ⟨hlen, hle, -⟩ := hinv
  simp only [List.length_map, List.length_reverse, List.length_take] at h
  omega

/-- Witness for C5: consuming the two-element stack `[1, 2]` yields `2, 1`. -/
theorem C5_into_iter_spec_witness :
    List.map some
      (IntoIter.collect 2 (StackList.into_iter ⟨[some 1, some 2], 2⟩ : IntoIter Nat 2)) =
      [some 2, some 1] :=
  (C5_into_iter_spec (⟨[some 1, some 2], 2⟩ : StackList Nat 2)
    (by unfold StackList.Inv; decide)).1 2 (by decide)
